import Mathlib

/-!
Verification development for the `translate.py` enrichment pipeline.

The program scans MySQL text columns, classifies values, translates
Chinese-bearing values through Azure's translation API (with a retry loop
and a run-scoped cache), and fills companion `<col>_en` columns in
page-sized batches.

Shallow embedding conventions:
* Python strings are lists of Unicode code points (`Str := List Nat`).
* Python runtime values flowing through a row (`None`, `str`, `bytes`,
  anything else) are the inductive `PyVal`.
* The HTTP transport behind `requests.post` is an oracle
  `Nat -> HttpOutcome` giving each attempt's outcome; everything after the
  transport (status dispatch, parsing, caching, backoff, the retry loop)
  is embedded from the source.
* The database is a list of `Row`s; the `SELECT ... LIMIT B OFFSET o`
  pagination, the per-row filter chain, the batched `UPDATE`s and the
  per-page `commit` are embedded from `process_table_column`.
-/

namespace NoteSys

/-- A Python `str` as its sequence of Unicode code points. -/
abbrev Str := List Nat

/-- Code points of a Lean string literal (used to write `Str` constants). -/
def cps (s : String) : Str := s.data.map Char.toNat

/-- A Python runtime value as it can appear in a fetched row or as a
translation result: `None`, a `str`, a `bytes`/`bytearray`, or any other
object. -/
inductive PyVal where
  | vnone : PyVal
  | vstr (s : Str) : PyVal
  | vbytes (b : List Nat) : PyVal
  | vother : PyVal
deriving DecidableEq, Repr

/-- Python truthiness of a `PyVal` (`None` and empty strings/bytes are
falsy), as used by `r.get(f"{col}_en")` in the idempotency gate. -/
def pyTruthy : PyVal → Bool
  | .vnone => false
  | .vstr s => !s.isEmpty
  | .vbytes b => !b.isEmpty
  | .vother => true

/-- Python `isinstance(v, str)`. -/
def isStrVal : PyVal → Bool
  | .vstr _ => true
  | _ => false

/-- ASCII whitespace, modelling the characters `str.strip()` and the
anchored `\s*` of `IS_NUMERIC_RE` remove or match in the data at hand. -/
def isSpaceCp (c : Nat) : Bool := c = 32 || c = 9 || c = 10 || c = 13 || c = 12 || c = 11

/-- Python `s.strip()`: drop whitespace from both ends. -/
def pyStrip (s : Str) : Str :=
  ((s.dropWhile isSpaceCp).reverse.dropWhile isSpaceCp).reverse

/-- ASCII lowercasing of one code point, modelling `str.lower()` on the
ASCII letters that matter for the column-name and URL-scheme checks. -/
def asciiLowerCp (c : Nat) : Nat := if 65 ≤ c && c ≤ 90 then c + 32 else c

/-- One code point of the `CN_RE` character class
`[㐀-鿿豈-﫿]` (CJK unified ideographs + compatibility). -/
def isCJK (c : Nat) : Bool :=
  (13312 ≤ c && c ≤ 40959) || (63744 ≤ c && c ≤ 64255)

/-- `CN_RE.search(s)`: some code point of `s` is in the CJK ranges. -/
def CN_search (s : Str) : Bool := s.any isCJK

/-- Source `contains_chinese`: `isinstance(s, str) and bool(CN_RE.search(s))`. -/
def contains_chinese : PyVal → Bool
  | .vstr s => CN_search s
  | _ => false

/-- `URL_RE.match(t)`: the case-insensitive anchored pattern
`^(?:https?|ftp)://`. -/
def urlMatch (t : Str) : Bool :=
  let l := t.map asciiLowerCp
  (cps "http://").isPrefixOf l || (cps "https://").isPrefixOf l ||
    (cps "ftp://").isPrefixOf l

/-- `EMAIL_RE.match(t)` for the pattern `^[^@\s]+@[^@\s]+\.[^@\s]+$`:
exactly one `@` (64), a non-empty whitespace-free local part, and a
whitespace-free domain containing a `.` (46) with at least one character
on each side.  (`t` is already stripped, so `$` is the end of string.) -/
def emailMatch (t : Str) : Bool :=
  let a := t.takeWhile (fun c => c ≠ 64)
  let m := (t.dropWhile (fun c => c ≠ 64)).drop 1
  t.count 64 = 1 && !a.isEmpty && a.all (fun c => !isSpaceCp c) &&
    m.all (fun c => !isSpaceCp c) &&
    (List.range m.length).any (fun j => m.get? j = some 46 && 1 ≤ j && j + 2 ≤ m.length)

/-- `IS_NUMERIC_RE.match(t)` for `^\s*[\d\.\-]+\s*$` on an already
stripped `t`: non-empty and all characters are digits, `.` or `-`. -/
def numericMatch (t : Str) : Bool :=
  !t.isEmpty && t.all (fun c => (48 ≤ c && c ≤ 57) || c = 46 || c = 45)

/-- The structural-data prefixes of the `t.startswith((...))` check:
`"\x7b"`, `"["`, `"<"`, `"<?xml"`, `"function"`, `"class"`, `"import "`,
`"package "` (the first three written as code points 123, 91, 60). -/
def structuralHeads : List Str :=
  [[123], [91], [60], cps "<?xml", cps "function", cps "class",
   cps "import ", cps "package "]

/-- Whether `t` starts with one of the structural-data markers. -/
def hasStructuralHead (t : Str) : Bool :=
  structuralHeads.any (fun p => p.isPrefixOf t)

/-- Core of `looks_like_non_language_value` on an actual string, after the
`isinstance` guard: trim, then reject length ≤ 1, URL/email/numeric
shapes, and structural-data prefixes. -/
def nonLanguageStr (s : Str) : Bool :=
  let t := pyStrip s
  if t.isEmpty || t.length ≤ 1 then true
  else if urlMatch t || emailMatch t || numericMatch t then true
  else if hasStructuralHead t then true
  else false

/-- Source `looks_like_non_language_value`: non-strings are always
"non-language"; strings go through `nonLanguageStr`. -/
def looks_like_non_language_value : PyVal → Bool
  | .vstr s => nonLanguageStr s
  | _ => true

/-- The spec's `IsTranslatableValue`, as composed by the engine's row gate
(lines 261-264): not a non-language value, and contains CJK characters. -/
def isTranslatableValue (v : PyVal) : Bool :=
  !looks_like_non_language_value v && contains_chinese v

/-- `SKIP_COL_KEYWORDS`, the lowercase deny-list substrings. -/
def SKIP_COL_KEYWORDS : List Str :=
  [cps "password", cps "pwd", cps "salt", cps "token", cps "sign",
   cps "signature", cps "sig", cps "email", cps "mail", cps "url",
   cps "uri", cps "link", cps "avatar", cps "image", cps "icon",
   cps "phone", cps "mobile", cps "tel", cps "idcard", cps "id_card",
   cps "id_no", cps "idnumber", cps "openid", cps "unionid",
   cps "session_key", cps "ip", cps "ua", cps "useragent",
   cps "user_agent", cps "hash", cps "checksum"]

/-- Python substring containment `k in n` (contiguous occurrence). -/
def isSubstr (k : Str) : Str → Bool
  | [] => k.isEmpty
  | c :: rest => k.isPrefixOf (c :: rest) || isSubstr k rest

/-- Source `should_translate_col`: lowercase the name, reject companion
columns (suffix `_en`) and names containing a deny-listed keyword. -/
def should_translate_col (col : Str) : Bool :=
  let n := col.map asciiLowerCp
  if (cps "_en").isSuffixOf n then false
  else !(SKIP_COL_KEYWORDS.any (fun k => isSubstr k n))

/-- Whether a byte is a UTF-8 continuation byte (`0x80`-`0xBF`). -/
def utf8Cont (b : Nat) : Bool := 128 ≤ b && b ≤ 191

/-- CPython's incremental UTF-8 decoder as invoked by
`val.decode("utf-8", errors=...)`: each maximal invalid subsequence
contributes `err` to the output (`[]` models `errors="ignore"`, which
drops it; `[0xFFFD]` models `errors="replace"`).  Valid lead-byte ranges
and the restricted second-byte ranges for `E0`/`ED`/`F0`/`F4` (overlongs
and surrogates rejected) follow the standard decoder. -/
def utf8DecodeAux (err : List Nat) : Nat → List Nat → List Nat
  | 0, _ => []
  | _, [] => []
  | fuel + 1, b :: bs =>
    if b < 128 then b :: utf8DecodeAux err fuel bs
    else if 194 ≤ b && b ≤ 223 then
      match bs with
      | [] => err
      | c :: bs2 =>
        if utf8Cont c then ((b - 192) * 64 + (c - 128)) :: utf8DecodeAux err fuel bs2
        else err ++ utf8DecodeAux err fuel (c :: bs2)
    else if 224 ≤ b && b ≤ 239 then
      let lo := if b = 224 then 160 else 128
      let hi := if b = 237 then 159 else 191
      match bs with
      | [] => err
      | c :: bs2 =>
        if lo ≤ c && c ≤ hi then
          match bs2 with
          | [] => err
          | d :: bs3 =>
            if utf8Cont d then
              ((b - 224) * 4096 + (c - 128) * 64 + (d - 128)) :: utf8DecodeAux err fuel bs3
            else err ++ utf8DecodeAux err fuel (d :: bs3)
        else err ++ utf8DecodeAux err fuel (c :: bs2)
    else if 240 ≤ b && b ≤ 244 then
      let lo := if b = 240 then 144 else 128
      let hi := if b = 244 then 143 else 191
      match bs with
      | [] => err
      | c :: bs2 =>
        if lo ≤ c && c ≤ hi then
          match bs2 with
          | [] => err
          | d :: bs3 =>
            if utf8Cont d then
              match bs3 with
              | [] => err
              | e :: bs4 =>
                if utf8Cont e then
                  ((b - 240) * 262144 + (c - 128) * 4096 + (d - 128) * 64 + (e - 128)) ::
                    utf8DecodeAux err fuel bs4
                else err ++ utf8DecodeAux err fuel (e :: bs4)
            else err ++ utf8DecodeAux err fuel (d :: bs3)
        else err ++ utf8DecodeAux err fuel (c :: bs2)
    else err ++ utf8DecodeAux err fuel bs

/-- Decode a byte string; the fuel (one unit per decoded unit, where every
step consumes at least one byte) always suffices at `length` bytes. -/
def utf8DecodeWith (err : List Nat) (l : List Nat) : List Nat :=
  utf8DecodeAux err l.length l

/-- Outcome of one `requests.post` attempt, as the retry loop of
`translate_azure` observes it: a raised `requests.RequestException`, or a
response with its status code and the result of extracting
`r.json()[0]["translations"][0]["text"]` (`none` when `r.json()` or the
indexing raises -- the `except` around the parse; `some v` the extracted
value, an arbitrary Python value). -/
inductive HttpOutcome where
  | exn : HttpOutcome
  | resp (status : Nat) (textField : Option PyVal) : HttpOutcome

/-- The module-level `_TRANSL_CACHE` dict: exact source string to cached
result (first binding wins on lookup, new bindings are prepended). -/
abbrev Cache := List (Str × PyVal)

/-- Result of one `translate_azure` invocation: the returned value, the
cache afterwards, the number of `requests.post` calls made, and the
`time.sleep` backoff delays performed (in seconds). -/
structure AzResult where
  val : PyVal
  cache : Cache
  calls : Nat
  sleeps : List ℚ
deriving DecidableEq, Repr

/-- Statuses the source treats as success: `r.status_code in (200, 201)`. -/
def successStatus (st : Nat) : Bool := st = 200 || st = 201

/-- Statuses the source retries: `r.status_code in (429, 500, 502, 503, 504)`. -/
def retryStatus (st : Nat) : Bool :=
  st = 429 || st = 500 || st = 502 || st = 503 || st = 504

/-- Whether an attempt outcome takes a retry branch of the loop
(a `RequestException`, or a retryable status). -/
def retryOutcome : HttpOutcome → Bool
  | .exn => true
  | .resp st _ => retryStatus st

/-- The `for _ in range(5)` retry loop of `translate_azure`.  `attempt`
indexes the oracle, `remaining` is the number of loop iterations left,
`backoff` starts at 0.8 and is multiplied by 1.6 after each retried
attempt; falling out of the loop returns the input text. -/
def translateAzureLoop (oracle : Nat → HttpOutcome) (text : Str) (cache : Cache) :
    Nat → Nat → ℚ → Nat → List ℚ → AzResult
  | _, 0, _, calls, sleeps => ⟨.vstr text, cache, calls, sleeps⟩
  | attempt, remaining + 1, backoff, calls, sleeps =>
    match oracle attempt with
    | .exn =>
      translateAzureLoop oracle text cache (attempt + 1) remaining
        (backoff * (8 / 5)) (calls + 1) (sleeps ++ [backoff])
    | .resp status textField =>
      if successStatus status then
        match textField with
        | some out => ⟨out, (text, out) :: cache, calls + 1, sleeps⟩
        | none => ⟨.vstr text, cache, calls + 1, sleeps⟩
      else if retryStatus status then
        translateAzureLoop oracle text cache (attempt + 1) remaining
          (backoff * (8 / 5)) (calls + 1) (sleeps ++ [backoff])
      else ⟨.vstr text, cache, calls + 1, sleeps⟩

/-- Source `translate_azure`: falsy (empty) text is returned as is; a
cached text is served from `_TRANSL_CACHE` without any request; otherwise
the retry loop runs with base delay 0.8 and factor 1.6 for 5 attempts. -/
def translate_azure (oracle : Nat → HttpOutcome) (cache : Cache) (text : Str) : AzResult :=
  if text.isEmpty then ⟨.vstr text, cache, 0, []⟩
  else
    match cache.lookup text with
    | some v => ⟨v, cache, 0, []⟩
    | none => translateAzureLoop oracle text cache 0 5 (4 / 5) 0 []

/-- Source `translate`: delegates to `translate_azure`. -/
def translate (oracle : Nat → HttpOutcome) (cache : Cache) (text : Str) : AzResult :=
  translate_azure oracle cache text

/-- A fetched row, restricted to what `process_table_column` reads from
it: the primary-key column values (`[r[k] for k in pk_cols]`), the source
column value `r.get(col)`, and the companion value `r.get(f"{col}_en")`. -/
structure Row where
  pk : List PyVal
  src : PyVal
  en : PyVal
deriving DecidableEq, Repr

/-- Observable events of one `process_table_column` run: a page read
(`SELECT ... LIMIT B OFFSET offset`), a `translate(val)` invocation, one
`cur.execute` of a buffered `UPDATE`, and a `conn.commit()`. -/
inductive Ev where
  | scan (offset : Nat) : Ev
  | trCall (s : Str) : Ev
  | execUpd (pk : List PyVal) (en : Str) : Ev
  | commit : Ev
deriving DecidableEq, Repr

/-- Lines 253-257: `bytes`/`bytearray` source values are decoded with
`val.decode("utf-8", errors="ignore")` (which never raises, so the
`except: continue` is dead); other values pass through. -/
def rowVal (r : Row) : PyVal :=
  match r.src with
  | .vbytes b => .vstr (utf8DecodeWith [] b)
  | v => v

/-- The per-row filter chain of lines 259-266, in source order: skip
non-strings, skip non-language values, skip values without CJK
characters, skip rows whose companion is already truthy (the idempotency
gate).  Returns the string to translate when every gate passes. -/
def rowEligible (r : Row) : Option Str :=
  match rowVal r with
  | .vstr s =>
    if looks_like_non_language_value (.vstr s) then none
    else if !contains_chinese (.vstr s) then none
    else if pyTruthy r.en then none
    else some s
  | _ => none

/-- Result of processing one row: the buffered update (primary key and
translated text) if any, whether the `[WARN]` log fired, the translator
state afterwards, external calls made, and emitted events. -/
structure RowOut (σ : Type) where
  upd : Option (List PyVal × Str)
  warned : Bool
  st : σ
  calls : Nat
  evs : List Ev

/-- Lines 248-275 for a single row, over an abstract stateful translator
`step` (state, text ↦ result value, state, external calls): run the
filter chain; on an eligible value call the translator; treat a non-`str`
result or an echo (`en == val`) as a logged failure; otherwise buffer the
`UPDATE` parameters. -/
def runRow {σ : Type} (step : σ → Str → PyVal × σ × Nat) (st : σ) (r : Row) : RowOut σ :=
  match rowEligible r with
  | none => ⟨none, false, st, 0, []⟩
  | some s =>
    match step st s with
    | (en, st', c) =>
      match en with
      | .vstr e =>
        if e = s then ⟨none, true, st', c, [.trCall s]⟩
        else ⟨some (r.pk, e), false, st', c, [.trCall s]⟩
      | _ => ⟨none, true, st', c, [.trCall s]⟩

/-- Accumulated result of the `for r in rows` loop over one page. -/
structure PageOut (σ : Type) where
  upds : List (List PyVal × Str)
  warns : Nat
  st : σ
  calls : Nat
  evs : List Ev

/-- The row loop over one fetched page, threading translator state and
accumulating buffered updates in row order. -/
def runPage {σ : Type} (step : σ → Str → PyVal × σ × Nat) : σ → List Row → PageOut σ
  | st, [] => ⟨[], 0, st, 0, []⟩
  | st, r :: rs =>
    let ro := runRow step st r
    let rest := runPage step ro.st rs
    ⟨ro.upd.toList ++ rest.upds, (if ro.warned then 1 else 0) + rest.warns,
      rest.st, ro.calls + rest.calls, ro.evs ++ rest.evs⟩

/-- Result of a whole `process_table_column` run: all executed updates in
order, rows scanned, `[WARN]` count, final translator state, external
calls, and the event trace. -/
structure EngineOut (σ : Type) where
  updates : List (List PyVal × Str)
  scanned : Nat
  warns : Nat
  st : σ
  calls : Nat
  trace : List Ev

/-- The `while True` scan loop of `process_table_column`: fetch the page
at `offset` (`LIMIT B OFFSET offset` over the unchanged source relation),
stop on an empty page, otherwise process the rows, then -- unless
`DRY_RUN` or no updates -- execute every buffered `UPDATE` and commit once,
and continue at `offset + B`.  The loop always terminates because the
offset grows; `fuel` bounds the number of iterations and is chosen in
`process_table_column` so that it never runs out. -/
def runScan {σ : Type} (step : σ → Str → PyVal × σ × Nat) (B : Nat) (dry : Bool)
    (table : List Row) : Nat → σ → Nat → EngineOut σ
  | 0, st, _ => ⟨[], 0, 0, st, 0, []⟩
  | fuel + 1, st, offset =>
    let page := (table.drop offset).take B
    if page.isEmpty then ⟨[], 0, 0, st, 0, [.scan offset]⟩
    else
      let p := runPage step st page
      let writeEvs : List Ev :=
        if dry || p.upds.isEmpty then []
        else (p.upds.map fun u => Ev.execUpd u.1 u.2) ++ [Ev.commit]
      let rest := runScan step B dry table fuel p.st (offset + B)
      ⟨p.upds ++ rest.updates, page.length + rest.scanned, p.warns + rest.warns,
        rest.st, p.calls + rest.calls,
        (Ev.scan offset :: p.evs ++ writeEvs) ++ rest.trace⟩

/-- Source `process_table_column` for one (table, column) target.  A fuel
of `table.length + 1` pages is always enough: with `B = 0` the first page
is already empty, and with `B ≥ 1` the loop ends after at most
`table.length / B + 1 ≤ table.length + 1` iterations. -/
def process_table_column {σ : Type} (step : σ → Str → PyVal × σ × Nat) (B : Nat)
    (dry : Bool) (table : List Row) (st : σ) : EngineOut σ :=
  runScan step B dry table (table.length + 1) st 0

/-- Effect of one buffered statement
`UPDATE t SET col_en=%s WHERE pk1=%s AND ...` on the table: every row
whose primary-key values equal the statement's parameters gets its
companion set. -/
def applyUpdate (table : List Row) (u : List PyVal × Str) : List Row :=
  table.map fun r => if r.pk = u.1 then { r with en := .vstr u.2 } else r

/-- Apply a run's executed updates in order. -/
def applyUpdates (table : List Row) (us : List (List PyVal × Str)) : List Row :=
  us.foldl applyUpdate table

/-- A stateless deterministic translator (used to express properties that
need two runs to see the same translator behaviour). -/
def pureStep (f : Str → PyVal) : Unit → Str → PyVal × Unit × Nat :=
  fun _ s => (f s, (), 1)

/-- The engine's actual translator: `translate` threading `_TRANSL_CACHE`,
with the HTTP transport given by `oracle`. -/
def azStep (oracle : Nat → HttpOutcome) : Cache → Str → PyVal × Cache × Nat :=
  fun cache s =>
    ((translate oracle cache s).val, (translate oracle cache s).cache,
      (translate oracle cache s).calls)

/-- Per-target outcome of the driver loop in `main`: a target on a table
without primary key is skipped before the engine runs (lines 339-345);
otherwise `process_table_column` runs. -/
inductive TRes (σ : Type) where
  | skippedNoPk : TRes σ
  | ran (out : EngineOut σ) : TRes σ

/-- Updates performed for one target result. -/
def tUpdates {σ : Type} : TRes σ → Nat
  | .skippedNoPk => 0
  | .ran out => out.updates.length

/-- External calls made for one target result. -/
def tCalls {σ : Type} : TRes σ → Nat
  | .skippedNoPk => 0
  | .ran out => out.calls

/-- The target loop of `main` (lines 336-349) over the filtered target
list, each target carrying its table's primary-key column names and rows:
`if not pk_cols: print("[SKIP] ..."); continue`, else run the engine,
threading the run-scoped translator state across targets. -/
def mainLoop {σ : Type} (step : σ → Str → PyVal × σ × Nat) (B : Nat) (dry : Bool) :
    List (List Str × List Row) → σ → List (TRes σ) × σ
  | [], st => ([], st)
  | (pkCols, rows) :: ts, st =>
    if pkCols.isEmpty then
      let res := mainLoop step B dry ts st
      (.skippedNoPk :: res.1, res.2)
    else
      let out := process_table_column step B dry rows st
      let res := mainLoop step B dry ts out.st
      (.ran out :: res.1, res.2)

/-- Phases of the page-discipline trace checker. -/
inductive Phase where
  | start : Phase
  | rows : Phase
  | writes : Phase

/-- Trace checker for page-granular write-back: a trace is an alternation
of pages, each a `scan` at the expected offset, then row processing
(translator calls only -- no update execution, no commit), then optionally
a contiguous block of update executions closed by exactly one commit
before the next `scan`, whose offset advanced by the page size. -/
def wpAux (B : Nat) : Phase → Nat → List Ev → Bool
  | .start, _, [] => true
  | .start, e, .scan o :: t => o == e && wpAux B .rows (e + B) t
  | .start, _, _ => false
  | .rows, _, [] => true
  | .rows, e, .trCall _ :: t => wpAux B .rows e t
  | .rows, e, .execUpd _ _ :: t => wpAux B .writes e t
  | .rows, e, .scan o :: t => o == e && wpAux B .rows (e + B) t
  | .rows, _, .commit :: _ => false
  | .writes, e, .execUpd _ _ :: t => wpAux B .writes e t
  | .writes, e, .commit :: t => wpAux B .start e t
  | .writes, _, _ => false

/-- A trace respects page-granular transactional write-back. -/
def wellPaged (B : Nat) (t : List Ev) : Bool := wpAux B .start 0 t

/-- Backoff delays of `k` consecutive retried attempts starting at `backoff`. -/
def geomSleeps (backoff : ℚ) : Nat → List ℚ
  | 0 => []
  | k + 1 => backoff :: geomSleeps (backoff * (8 / 5)) k

/-- The update one row contributes under a stateless translator `f`. -/
def rowUpd (f : Str → PyVal) (r : Row) : Option (List PyVal × Str) :=
  (runRow (pureStep f) () r).upd

/-- Cumulative effect of a run's updates on one row. -/
def applyAll (us : List (List PyVal × Str)) (r : Row) : Row :=
  us.foldl (fun r u => if r.pk = u.1 then { r with en := .vstr u.2 } else r) r


/-- A permanently failing transport: every attempt yields HTTP 403 (an
authentication/authorization failure the source does not retry). -/
def oracle403 : Nat → HttpOutcome := fun _ => .resp 403 none

/-- A transport whose responses parse to the empty string (HTTP 200 with
`[{"translations": [{"text": ""}]}]`). -/
def oracleEmpty : Nat → HttpOutcome := fun _ => .resp 200 (some (.vstr []))

/-- A transport whose responses parse to a non-string `"text"` field
(HTTP 200 with, e.g., `[{"translations": [{"text": 7}]}]`). -/
def oracleOther : Nat → HttpOutcome := fun _ => .resp 200 (some PyVal.vother)

/-- A stateless translator that echoes its input. -/
def echoStep : Unit → Str → PyVal × Unit × Nat := fun _ s => (.vstr s, (), 1)

/-- A stateless translator returning a non-string result. -/
def noneStep : Unit → Str → PyVal × Unit × Nat := fun _ _ => (.vnone, (), 1)

/-- A sample table row: primary key `7`, source value `"你好"`, companion
unset. -/
def sampleRow : Row := ⟨[.vstr [55]], .vstr (cps "你好"), .vnone⟩

/-- Bytes of `"你好"` in UTF-8 preceded by the invalid byte `0xFF`. -/
def bytesCex : List Nat := [255, 228, 189, 160, 229, 165, 189]

/-- A transport failing with one network exception, then succeeding with
`"hello"`. -/
def oracleOneExn : Nat → HttpOutcome :=
  fun i => if i = 0 then .exn else .resp 200 (some (.vstr (cps "hello")))

/-- A transport raising a network exception on every attempt. -/
def oracleExn : Nat → HttpOutcome := fun _ => .exn

/-- The cache evolution of a run: thread `_TRANSL_CACHE` through a
sequence of `translate` invocations, each with its transport and text. -/
def azRunCache : Cache → List ((Nat → HttpOutcome) × Str) → Cache
  | c, [] => c
  | c, (o, t) :: rest => azRunCache (translate_azure o c t).cache rest

/-- How many invocations of `text` in a run perform a successful external
call.  A lookup makes a successful external call exactly when it writes
the cache (see the success characterization of the loop), so the count
is over the invocations whose resulting cache differs from the one they
started with. -/
def azRunSuccCount (text : Str) : Cache → List ((Nat → HttpOutcome) × Str) → Nat
  | _, [] => 0
  | c, (o, t) :: rest =>
    (if t = text ∧ (translate_azure o c t).cache ≠ c then 1 else 0) +
      azRunSuccCount text (translate_azure o c t).cache rest

lemma geomSleeps_eq (backoff : ℚ) (k : Nat) :
    geomSleeps backoff k = (List.range k).map (fun i => backoff * (8 / 5 : ℚ) ^ i) := by
  induction k generalizing backoff with
  | zero => rfl
  | succ k ih =>
    rw [geomSleeps, ih, List.range_succ_eq_map, List.map_cons, List.map_map]
    simp only [pow_zero, mul_one]
    congr 1
    apply List.map_congr_left
    intro a _
    simp [pow_succ]
    ring

lemma azLoop_retry_then_success (oracle : Nat → HttpOutcome) (text : Str) (cache : Cache)
    (out : PyVal) :
    ∀ (k attempt rem : Nat) (backoff : ℚ) (calls : Nat) (sleeps : List ℚ),
      k < rem →
      (∀ i, i < k → retryOutcome (oracle (attempt + i)) = true) →
      oracle (attempt + k) = .resp 200 (some out) →
      translateAzureLoop oracle text cache attempt rem backoff calls sleeps =
        ⟨out, (text, out) :: cache, calls + (k + 1), sleeps ++ geomSleeps backoff k⟩ := by
  intro k
  induction k with
  | zero =>
    intro attempt rem backoff calls sleeps hk hre hsucc
    obtain ⟨n, rfl⟩ := Nat.exists_eq_succ_of_ne_zero (Nat.pos_iff_ne_zero.mp hk)
    rw [translateAzureLoop]
    rw [Nat.add_zero] at hsucc
    rw [hsucc]
    simp [successStatus, geomSleeps]
  | succ k ih =>
    intro attempt rem backoff calls sleeps hk hre hsucc
    obtain ⟨n, rfl⟩ := Nat.exists_eq_succ_of_ne_zero (Nat.pos_iff_ne_zero.mp (Nat.lt_of_le_of_lt (Nat.zero_le _) hk))
    have h0 : retryOutcome (oracle attempt) = true := by
      have := hre 0 (Nat.succ_pos k); rwa [Nat.add_zero] at this
    have hre' : ∀ i, i < k → retryOutcome (oracle (attempt + 1 + i)) = true := by
      intro i hi
      have := hre (i + 1) (by omega)
      rwa [show attempt + (i + 1) = attempt + 1 + i by omega] at this
    have hsucc' : oracle (attempt + 1 + k) = .resp 200 (some out) := by
      rwa [show attempt + 1 + k = attempt + (k + 1) by omega]
    rw [translateAzureLoop]
    cases horacle : oracle attempt with
    | exn =>
      rw [ih (attempt + 1) n (backoff * (8 / 5)) (calls + 1) (sleeps ++ [backoff])
        (by omega) hre' hsucc']
      simp [geomSleeps]
      omega
    | resp status tf =>
      rw [horacle] at h0
      simp only [retryOutcome, retryStatus, Bool.or_eq_true, decide_eq_true_eq] at h0
      have hs : ¬(successStatus status = true) := by
        simp only [successStatus, Bool.or_eq_true, decide_eq_true_eq]
        omega
      have hr2 : retryStatus status = true := by
        simp only [retryStatus, Bool.or_eq_true, decide_eq_true_eq]
        omega
      dsimp only
      rw [if_neg hs, if_pos hr2]
      rw [ih (attempt + 1) n (backoff * (8 / 5)) (calls + 1) (sleeps ++ [backoff])
        (by omega) hre' hsucc']
      simp [geomSleeps]
      omega

lemma azLoop_all_retry (oracle : Nat → HttpOutcome) (text : Str) (cache : Cache) :
    ∀ (rem attempt : Nat) (backoff : ℚ) (calls : Nat) (sleeps : List ℚ),
      (∀ i, i < rem → retryOutcome (oracle (attempt + i)) = true) →
      translateAzureLoop oracle text cache attempt rem backoff calls sleeps =
        ⟨.vstr text, cache, calls + rem, sleeps ++ geomSleeps backoff rem⟩ := by
  intro rem
  induction rem with
  | zero => intro attempt backoff calls sleeps _; simp [translateAzureLoop, geomSleeps]
  | succ n ih =>
    intro attempt backoff calls sleeps hre
    have h0 : retryOutcome (oracle attempt) = true := by
      have := hre 0 (Nat.succ_pos n); rwa [Nat.add_zero] at this
    have hre' : ∀ i, i < n → retryOutcome (oracle (attempt + 1 + i)) = true := by
      intro i hi
      have := hre (i + 1) (by omega)
      rwa [show attempt + (i + 1) = attempt + 1 + i by omega] at this
    rw [translateAzureLoop]
    cases horacle : oracle attempt with
    | exn =>
      rw [ih (attempt + 1) (backoff * (8 / 5)) (calls + 1) (sleeps ++ [backoff]) hre']
      simp [geomSleeps]
      omega
    | resp status tf =>
      rw [horacle] at h0
      simp only [retryOutcome, retryStatus, Bool.or_eq_true, decide_eq_true_eq] at h0
      have hs : ¬(successStatus status = true) := by
        simp only [successStatus, Bool.or_eq_true, decide_eq_true_eq]
        omega
      have hr2 : retryStatus status = true := by
        simp only [retryStatus, Bool.or_eq_true, decide_eq_true_eq]
        omega
      dsimp only
      rw [if_neg hs, if_pos hr2]
      rw [ih (attempt + 1) (backoff * (8 / 5)) (calls + 1) (sleeps ++ [backoff]) hre']
      simp [geomSleeps]
      omega

lemma azLoop_res_cases (oracle : Nat → HttpOutcome) (text : Str) (cache : Cache) :
    ∀ (rem attempt : Nat) (backoff : ℚ) (calls : Nat) (sleeps : List ℚ),
      ((translateAzureLoop oracle text cache attempt rem backoff calls sleeps).cache = cache ∧
        (translateAzureLoop oracle text cache attempt rem backoff calls sleeps).val = .vstr text) ∨
      (translateAzureLoop oracle text cache attempt rem backoff calls sleeps).cache =
        (text, (translateAzureLoop oracle text cache attempt rem backoff calls sleeps).val) :: cache := by
  intro rem
  induction rem with
  | zero => intro attempt backoff calls sleeps; left; exact ⟨rfl, rfl⟩
  | succ n ih =>
    intro attempt backoff calls sleeps
    rw [translateAzureLoop]
    cases horacle : oracle attempt with
    | exn => exact ih (attempt + 1) (backoff * (8 / 5)) (calls + 1) (sleeps ++ [backoff])
    | resp status tf =>
      dsimp only
      split
      · cases tf with
        | some out => right; rfl
        | none => left; exact ⟨rfl, rfl⟩
      · split
        · exact ih (attempt + 1) (backoff * (8 / 5)) (calls + 1) (sleeps ++ [backoff])
        · left; exact ⟨rfl, rfl⟩

lemma azLoop_calls_le (oracle : Nat → HttpOutcome) (text : Str) (cache : Cache) :
    ∀ (rem attempt : Nat) (backoff : ℚ) (calls : Nat) (sleeps : List ℚ),
      (translateAzureLoop oracle text cache attempt rem backoff calls sleeps).calls ≤ calls + rem := by
  intro rem
  induction rem with
  | zero => intro attempt backoff calls sleeps; simp [translateAzureLoop]
  | succ n ih =>
    intro attempt backoff calls sleeps
    rw [translateAzureLoop]
    cases horacle : oracle attempt with
    | exn =>
      exact le_trans (ih (attempt + 1) (backoff * (8 / 5)) (calls + 1) (sleeps ++ [backoff])) (by omega)
    | resp status tf =>
      dsimp only
      split
      · cases tf <;> dsimp only <;> omega
      · split
        · exact le_trans (ih (attempt + 1) (backoff * (8 / 5)) (calls + 1) (sleeps ++ [backoff])) (by omega)
        · dsimp only; omega

lemma translate_azure_empty (oracle : Nat → HttpOutcome) (cache : Cache) (text : Str)
    (he : text.isEmpty = true) :
    translate_azure oracle cache text = ⟨.vstr text, cache, 0, []⟩ := by
  unfold translate_azure
  rw [he]
  simp

lemma translate_azure_cached (oracle : Nat → HttpOutcome) (cache : Cache) (text : Str)
    (v : PyVal) (hne : text.isEmpty = false) (h : cache.lookup text = some v) :
    translate_azure oracle cache text = ⟨v, cache, 0, []⟩ := by
  unfold translate_azure
  rw [hne, h]
  simp

lemma translate_azure_uncached (oracle : Nat → HttpOutcome) (cache : Cache) (text : Str)
    (hne : text.isEmpty = false) (h : cache.lookup text = none) :
    translate_azure oracle cache text = translateAzureLoop oracle text cache 0 5 (4 / 5) 0 [] := by
  unfold translate_azure
  rw [hne, h]
  simp

lemma lookup_cons_self {text : Str} {out : PyVal} {cache : Cache} :
    ((text, out) :: cache).lookup text = some out := by
  simp [List.lookup]

lemma lookup_cons_ne {k text : Str} {out : PyVal} {cache : Cache} (h : (k == text) = false) :
    ((text, out) :: cache).lookup k = cache.lookup k := by
  simp [List.lookup, h]

lemma translate_azure_res_cases (oracle : Nat → HttpOutcome) (cache : Cache) (text : Str) :
    ((translate_azure oracle cache text).cache = cache) ∨
    (cache.lookup text = none ∧
      (translate_azure oracle cache text).cache =
        (text, (translate_azure oracle cache text).val) :: cache) := by
  cases he : text.isEmpty
  · cases hl : cache.lookup text with
    | some v => rw [translate_azure_cached oracle cache text v he hl]; left; rfl
    | none =>
      rw [translate_azure_uncached oracle cache text he hl]
      rcases azLoop_res_cases oracle text cache 5 0 (4 / 5) 0 [] with ⟨hc, _⟩ | hc
      · left; exact hc
      · right; exact ⟨rfl, hc⟩
  · rw [translate_azure_empty oracle cache text he]; left; rfl

lemma translate_azure_lookup_preserved (oracle : Nat → HttpOutcome) (cache : Cache)
    (text k : Str) (v : PyVal) (h : cache.lookup k = some v) :
    (translate_azure oracle cache text).cache.lookup k = some v := by
  rcases translate_azure_res_cases oracle cache text with hc | ⟨hnone, hc⟩
  · rw [hc]; exact h
  · rw [hc]
    cases hbeq : k == text
    · rw [lookup_cons_ne hbeq]; exact h
    · exfalso
      have heq : k = text := eq_of_beq hbeq
      rw [heq, hnone] at h
      exact Option.noConfusion h

lemma translate_azure_calls_le (oracle : Nat → HttpOutcome) (cache : Cache) (text : Str) :
    (translate_azure oracle cache text).calls ≤ 5 := by
  cases he : text.isEmpty
  · cases hl : cache.lookup text with
    | some v => rw [translate_azure_cached oracle cache text v he hl]; simp
    | none =>
      rw [translate_azure_uncached oracle cache text he hl]
      simpa using azLoop_calls_le oracle text cache 5 0 (4 / 5) 0 []
  · rw [translate_azure_empty oracle cache text he]; simp

lemma translate_azure_val_cases (oracle : Nat → HttpOutcome) (cache : Cache) (text : Str) :
    (translate_azure oracle cache text).val = .vstr text ∨
    (translate_azure oracle cache text).cache.lookup text =
      some (translate_azure oracle cache text).val := by
  cases he : text.isEmpty
  · cases hl : cache.lookup text with
    | some v => rw [translate_azure_cached oracle cache text v he hl]; right; simpa using hl
    | none =>
      rw [translate_azure_uncached oracle cache text he hl]
      rcases azLoop_res_cases oracle text cache 5 0 (4 / 5) 0 [] with ⟨_, hv⟩ | hc
      · left; exact hv
      · right; rw [hc]; exact lookup_cons_self
  · rw [translate_azure_empty oracle cache text he]; left; rfl

lemma retryStatus_false_of_success (st : Nat) (h : successStatus st = true) :
    retryStatus st = false := by
  have h2 : st = 200 ∨ st = 201 := by simpa [successStatus] using h
  simp only [retryStatus, Bool.or_eq_false_iff, decide_eq_false_iff_not]
  omega

lemma shift_iff (R S : Nat → Prop) (a rem : Nat) (hR : R a) (hS : ¬S a) :
    (∃ k, k < rem ∧ (∀ i, i < k → R (a + 1 + i)) ∧ S (a + 1 + k)) ↔
    (∃ k, k < rem + 1 ∧ (∀ i, i < k → R (a + i)) ∧ S (a + k)) := by
  constructor
  · rintro ⟨k, hk, hall, hs⟩
    refine ⟨k + 1, by omega, ?_, ?_⟩
    · intro i hi
      cases i with
      | zero => simpa using hR
      | succ j =>
        have := hall j (by omega)
        rwa [show a + 1 + j = a + (j + 1) by omega] at this
    · rwa [show a + (k + 1) = a + 1 + k by omega]
  · rintro ⟨k, hk, hall, hs⟩
    cases k with
    | zero => rw [Nat.add_zero] at hs; exact absurd hs hS
    | succ j =>
      refine ⟨j, by omega, ?_, ?_⟩
      · intro i hi
        have := hall (i + 1) (by omega)
        rwa [show a + (i + 1) = a + 1 + i by omega] at this
      · rwa [show a + (j + 1) = a + 1 + j by omega] at hs

/-- Success characterization of the retry loop: the loop writes the cache
entry `(text, result)` exactly when some attempt, preceded only by
retryable failures, answers with a success status and a parsable body. -/
lemma azLoop_writes_iff (oracle : Nat → HttpOutcome) (text : Str) (cache : Cache) :
    ∀ (rem attempt : Nat) (backoff : ℚ) (calls : Nat) (sleeps : List ℚ),
      ((translateAzureLoop oracle text cache attempt rem backoff calls sleeps).cache =
        (text, (translateAzureLoop oracle text cache attempt rem backoff calls sleeps).val)
          :: cache) ↔
      (∃ k, k < rem ∧ (∀ i, i < k → retryOutcome (oracle (attempt + i)) = true) ∧
        ∃ status out, successStatus status = true ∧
          oracle (attempt + k) = .resp status (some out)) := by
  intro rem
  induction rem with
  | zero =>
    intro attempt backoff calls sleeps
    simp only [translateAzureLoop]
    constructor
    · intro h
      exact absurd h.symm (List.cons_ne_self _ _)
    · rintro ⟨k, hk, -⟩
      omega
  | succ n ih =>
    intro attempt backoff calls sleeps
    rw [translateAzureLoop]
    cases horacle : oracle attempt with
    | exn =>
      rw [ih (attempt + 1) (backoff * (8 / 5)) (calls + 1) (sleeps ++ [backoff])]
      exact shift_iff (fun m => retryOutcome (oracle m) = true)
        (fun m => ∃ status out, successStatus status = true ∧
          oracle m = .resp status (some out)) attempt n
        (by show retryOutcome (oracle attempt) = true; rw [horacle]; rfl)
        (by rintro ⟨status, out, -, ho⟩; rw [horacle] at ho; exact HttpOutcome.noConfusion ho)
    | resp st tf =>
      dsimp only
      by_cases hsucc : successStatus st = true
      · rw [if_pos hsucc]
        cases tf with
        | some out =>
          refine iff_of_true rfl ⟨0, by omega, fun i hi => absurd hi (by omega), st, out, hsucc, ?_⟩
          rw [Nat.add_zero]
          exact horacle
        | none =>
          refine iff_of_false (fun h => absurd h.symm (List.cons_ne_self _ _)) ?_
          rintro ⟨k, hk, hall, status, out, hs', ho⟩
          cases k with
          | zero =>
            rw [Nat.add_zero, horacle] at ho
            injection ho with h1 h2
            exact Option.noConfusion h2
          | succ j =>
            have := hall 0 (by omega)
            rw [Nat.add_zero, horacle] at this
            simp only [retryOutcome] at this
            rw [retryStatus_false_of_success st hsucc] at this
            exact Bool.noConfusion this
      · rw [if_neg hsucc]
        by_cases hretry : retryStatus st = true
        · rw [if_pos hretry]
          rw [ih (attempt + 1) (backoff * (8 / 5)) (calls + 1) (sleeps ++ [backoff])]
          refine shift_iff (fun m => retryOutcome (oracle m) = true)
            (fun m => ∃ status out, successStatus status = true ∧
              oracle m = .resp status (some out)) attempt n
            (by show retryOutcome (oracle attempt) = true
                rw [horacle]
                simpa [retryOutcome] using hretry) ?_
          rintro ⟨status, out, hs', ho⟩
          rw [horacle] at ho
          injection ho with h1 h2
          rw [← h1] at hs'
          exact hsucc hs'
        · rw [if_neg hretry]
          refine iff_of_false (fun h => absurd h.symm (List.cons_ne_self _ _)) ?_
          rintro ⟨k, hk, hall, status, out, hs', ho⟩
          cases k with
          | zero =>
            rw [Nat.add_zero, horacle] at ho
            injection ho with h1 h2
            rw [← h1] at hs'
            exact hsucc hs'
          | succ j =>
            have := hall 0 (by omega)
            rw [Nat.add_zero, horacle] at this
            simp only [retryOutcome] at this
            exact hretry this

/-- Top-level success characterization: for a non-empty uncached text, an
invocation writes the cache entry `(text, result)` exactly when some
attempt below the cap, preceded only by retryable failures, answers
successfully with a parsable body. -/
lemma translate_azure_success_iff (oracle : Nat → HttpOutcome) (cache : Cache) (text : Str)
    (hne : text.isEmpty = false) (hnone : cache.lookup text = none) :
    ((translate_azure oracle cache text).cache =
      (text, (translate_azure oracle cache text).val) :: cache) ↔
    (∃ k, k < 5 ∧ (∀ i, i < k → retryOutcome (oracle i) = true) ∧
      ∃ status out, successStatus status = true ∧ oracle k = .resp status (some out)) := by
  rw [translate_azure_uncached oracle cache text hne hnone]
  have h := azLoop_writes_iff oracle text cache 5 0 (4 / 5) 0 []
  simpa using h

lemma azRunCache_preserves :
    ∀ (l : List ((Nat → HttpOutcome) × Str)) (c : Cache) (k : Str) (v : PyVal),
      c.lookup k = some v → (azRunCache c l).lookup k = some v := by
  intro l
  induction l with
  | nil => intro c k v h; exact h
  | cons p rest ih =>
    intro c k v h
    rcases p with ⟨o, t⟩
    exact ih _ k v (translate_azure_lookup_preserved o c t k v h)

lemma azRunSuccCount_zero_of_cached :
    ∀ (l : List ((Nat → HttpOutcome) × Str)) (c : Cache) (text : Str) (v : PyVal),
      c.lookup text = some v → azRunSuccCount text c l = 0 := by
  intro l
  induction l with
  | nil => intro c text v _; rfl
  | cons p rest ih =>
    intro c text v h
    rcases p with ⟨o, t⟩
    rw [azRunSuccCount]
    have hpres := translate_azure_lookup_preserved o c t text v h
    rw [ih _ text v hpres, Nat.add_zero]
    by_cases ht : t = text
    · subst ht
      cases he : t.isEmpty
      · rw [translate_azure_cached o c t v he h]
        simp
      · rw [translate_azure_empty o c t he]
        simp
    · rw [if_neg (by rintro ⟨h1, -⟩; exact ht h1)]

lemma azRunSuccCount_le_one :
    ∀ (l : List ((Nat → HttpOutcome) × Str)) (c : Cache) (text : Str),
      azRunSuccCount text c l ≤ 1 := by
  intro l
  induction l with
  | nil => intro c text; exact Nat.zero_le 1
  | cons p rest ih =>
    intro c text
    rcases p with ⟨o, t⟩
    rw [azRunSuccCount]
    by_cases hcond : t = text ∧ (translate_azure o c t).cache ≠ c
    · rw [if_pos hcond]
      rcases hcond with ⟨rfl, hchanged⟩
      rcases translate_azure_res_cases o c t with hc | ⟨-, hc⟩
      · exact absurd hc hchanged
      · have hcached : (translate_azure o c t).cache.lookup t =
            some (translate_azure o c t).val := by
          rw [hc]
          exact lookup_cons_self
        rw [azRunSuccCount_zero_of_cached rest _ t _ hcached]
    · rw [if_neg hcond]
      simpa using ih _ text

lemma rowEligible_of_truthy (r : Row) (h : pyTruthy r.en = true) : rowEligible r = none := by
  unfold rowEligible
  cases rowVal r <;> simp [h]

lemma runRow_of_truthy {σ : Type} (step : σ → Str → PyVal × σ × Nat) (st : σ) (r : Row)
    (h : pyTruthy r.en = true) : runRow step st r = ⟨none, false, st, 0, []⟩ := by
  unfold runRow
  rw [rowEligible_of_truthy r h]

lemma rowEligible_some (r : Row) (s : Str) (hsrc : r.src = .vstr s)
    (h1 : looks_like_non_language_value (.vstr s) = false)
    (h2 : contains_chinese (.vstr s) = true)
    (h3 : pyTruthy r.en = false) : rowEligible r = some s := by
  unfold rowEligible rowVal
  rw [hsrc]
  simp [h1, h2, h3]

lemma runRow_step {σ : Type} (step : σ → Str → PyVal × σ × Nat) (st : σ) (r : Row) (s : Str)
    (he : rowEligible r = some s) :
    runRow step st r =
      (match step st s with
       | (en, st', c) =>
         match en with
         | .vstr e =>
           if e = s then ⟨none, true, st', c, [.trCall s]⟩
           else ⟨some (r.pk, e), false, st', c, [.trCall s]⟩
         | _ => ⟨none, true, st', c, [.trCall s]⟩) := by
  unfold runRow
  rw [he]

lemma runRow_evs_cases {σ : Type} (step : σ → Str → PyVal × σ × Nat) (st : σ) (r : Row) :
    (runRow step st r).evs = [] ∨ ∃ s, (runRow step st r).evs = [Ev.trCall s] := by
  unfold runRow
  cases he : rowEligible r with
  | none => left; rfl
  | some s =>
    right
    refine ⟨s, ?_⟩
    dsimp only
    rcases hstep : step st s with ⟨en, st', c⟩
    dsimp only
    cases en with
    | vstr e => dsimp only; split <;> rfl
    | vnone => rfl
    | vbytes b => rfl
    | vother => rfl

lemma runPage_pure_upds (f : Str → PyVal) :
    ∀ (rs : List Row) (st : Unit), (runPage (pureStep f) st rs).upds = rs.filterMap (rowUpd f) := by
  intro rs
  induction rs with
  | nil => intro st; rfl
  | cons r rs ih =>
    intro st
    rw [runPage]
    rw [List.filterMap_cons]
    cases hu : rowUpd f r with
    | none =>
      have : (runRow (pureStep f) st r).upd = none := hu
      simp [this, ih]
    | some u =>
      have : (runRow (pureStep f) st r).upd = some u := hu
      simp [this, ih]

lemma runScan_pure_updates (f : Str → PyVal) (B : Nat) (dry : Bool) (table : List Row)
    (hB : 1 ≤ B) :
    ∀ (fuel offset : Nat) (st : Unit), table.length ≤ offset + fuel * B →
      (runScan (pureStep f) B dry table fuel st offset).updates =
        (table.drop offset).filterMap (rowUpd f) := by
  intro fuel
  induction fuel with
  | zero =>
    intro offset st hlen
    rw [List.drop_eq_nil_of_le (by simpa using hlen)]
    rfl
  | succ n ih =>
    intro offset st hlen
    rw [runScan]
    cases hp : ((table.drop offset).take B).isEmpty
    · dsimp only
      rw [if_neg (by simp [hp])]
      have hdd : table.drop (offset + B) = (table.drop offset).drop B :=
        (List.drop_drop B offset table).symm
      have hlen' : table.length ≤ offset + B + n * B := by
        have := hlen
        rw [Nat.succ_mul] at this
        omega
      dsimp only
      rw [ih (offset + B) _ hlen']
      rw [runPage_pure_upds]
      rw [hdd, ← List.filterMap_append, List.take_append_drop]
    · dsimp only
      rw [if_pos (by simp [hp])]
      have : (table.drop offset) = [] := by
        rcases List.take_eq_nil_iff.mp (List.isEmpty_iff.mp hp) with h | h
        · omega
        · exact h
      rw [this]
      rfl

lemma applyUpdates_eq_map (table : List Row) (us : List (List PyVal × Str)) :
    applyUpdates table us = table.map (applyAll us) := by
  induction us generalizing table with
  | nil =>
    rw [List.map_congr_left (show ∀ r ∈ table, applyAll [] r = id r from fun r _ => rfl),
      List.map_id]
    rfl
  | cons u us ih =>
    rw [applyUpdates, List.foldl_cons]
    have : applyUpdate table u = table.map fun r => if r.pk = u.1 then { r with en := .vstr u.2 } else r := rfl
    rw [show List.foldl applyUpdate (applyUpdate table u) us = applyUpdates (applyUpdate table u) us from rfl]
    rw [ih, this, List.map_map]
    apply List.map_congr_left
    intro r _
    rfl

lemma applyAll_cases (us : List (List PyVal × Str)) (r : Row) :
    ((∀ u ∈ us, u.1 ≠ r.pk) ∧ applyAll us r = r) ∨
    (∃ u ∈ us, u.1 = r.pk ∧ (applyAll us r).en = .vstr u.2) := by
  induction us generalizing r with
  | nil => left; exact ⟨by simp, rfl⟩
  | cons u us ih =>
    by_cases hpk : r.pk = u.1
    · have h1 : applyAll (u :: us) r = applyAll us { r with en := .vstr u.2 } := by
        rw [applyAll, List.foldl_cons, if_pos hpk]
        rfl
      rcases ih { r with en := .vstr u.2 } with ⟨_, heq⟩ | ⟨u', hmem, hpk', hen⟩
      · right
        refine ⟨u, List.mem_cons_self u us, hpk.symm, ?_⟩
        rw [h1, heq]
      · right
        refine ⟨u', List.mem_cons_of_mem u hmem, ?_, ?_⟩
        · simpa using hpk'
        · rw [h1]; exact hen
    · have h1 : applyAll (u :: us) r = applyAll us r := by
        rw [applyAll, List.foldl_cons, if_neg hpk]
        rfl
      rcases ih r with ⟨hall, heq⟩ | ⟨u', hmem, hpk', hen⟩
      · left
        constructor
        · intro v hv
          rcases List.mem_cons.mp hv with rfl | hv'
          · intro hc; exact hpk hc.symm
          · exact hall v hv'
        · rw [h1, heq]
      · right
        exact ⟨u', List.mem_cons_of_mem u hmem, hpk', by rw [h1]; exact hen⟩

lemma rowUpd_pk (f : Str → PyVal) (r : Row) (u : List PyVal × Str)
    (h : rowUpd f r = some u) : u.1 = r.pk := by
  unfold rowUpd runRow at h
  cases he : rowEligible r with
  | none => rw [he] at h; exact Option.noConfusion h
  | some s =>
    rw [he] at h
    dsimp only [pureStep] at h
    cases hf : f s with
    | vstr e =>
      rw [hf] at h
      dsimp only at h
      by_cases hes : e = s
      · rw [if_pos hes] at h; exact Option.noConfusion h
      · rw [if_neg hes] at h
        injection h with h'
        rw [← h']
    | vnone => rw [hf] at h; exact Option.noConfusion h
    | vbytes b => rw [hf] at h; exact Option.noConfusion h
    | vother => rw [hf] at h; exact Option.noConfusion h

lemma rowUpd_shape (f : Str → PyVal) (r : Row) (u : List PyVal × Str)
    (h : rowUpd f r = some u) :
    ∃ s, rowEligible r = some s ∧ f s = .vstr u.2 ∧ u.2 ≠ s := by
  unfold rowUpd runRow at h
  cases he : rowEligible r with
  | none => rw [he] at h; exact Option.noConfusion h
  | some s =>
    rw [he] at h
    dsimp only [pureStep] at h
    cases hf : f s with
    | vstr e =>
      rw [hf] at h
      dsimp only at h
      by_cases hes : e = s
      · rw [if_pos hes] at h; exact Option.noConfusion h
      · rw [if_neg hes] at h
        injection h with h'
        refine ⟨s, rfl, ?_, ?_⟩
        · rw [← h', hf]
        · rw [← h']; exact hes
    | vnone => rw [hf] at h; exact Option.noConfusion h
    | vbytes b => rw [hf] at h; exact Option.noConfusion h
    | vother => rw [hf] at h; exact Option.noConfusion h

lemma rowUpd_of_truthy (f : Str → PyVal) (r : Row) (h : pyTruthy r.en = true) :
    rowUpd f r = none := by
  unfold rowUpd
  rw [runRow_of_truthy (pureStep f) () r h]

lemma runPage_evs_trCall {σ : Type} (step : σ → Str → PyVal × σ × Nat) :
    ∀ (rs : List Row) (st : σ) (ev : Ev), ev ∈ (runPage step st rs).evs → ∃ s, ev = Ev.trCall s := by
  intro rs
  induction rs with
  | nil => intro st ev h; exact absurd h (List.not_mem_nil ev)
  | cons r rs ih =>
    intro st ev h
    rw [runPage] at h
    dsimp only at h
    rcases List.mem_append.mp h with h1 | h2
    · rcases runRow_evs_cases step st r with he | ⟨s, he⟩
      · rw [he] at h1; exact absurd h1 (List.not_mem_nil ev)
      · rw [he] at h1
        rcases List.mem_singleton.mp h1 with rfl
        exact ⟨s, rfl⟩
    · exact ih _ ev h2

lemma wpAux_start_scan (B e o : Nat) (t : List Ev) :
    wpAux B .start e (Ev.scan o :: t) = ((o == e) && wpAux B .rows (e + B) t) := rfl

lemma wpAux_rows_trCall (B e : Nat) (s : Str) (t : List Ev) :
    wpAux B .rows e (Ev.trCall s :: t) = wpAux B .rows e t := rfl

lemma wpAux_rows_exec (B e : Nat) (p : List PyVal) (v : Str) (t : List Ev) :
    wpAux B .rows e (Ev.execUpd p v :: t) = wpAux B .writes e t := rfl

lemma wpAux_writes_exec (B e : Nat) (p : List PyVal) (v : Str) (t : List Ev) :
    wpAux B .writes e (Ev.execUpd p v :: t) = wpAux B .writes e t := rfl

lemma wpAux_writes_commit (B e : Nat) (t : List Ev) :
    wpAux B .writes e (Ev.commit :: t) = wpAux B .start e t := rfl

lemma wpAux_rows_of_start (B : Nat) :
    ∀ (t : List Ev) (e : Nat), wpAux B .start e t = true → wpAux B .rows e t = true := by
  intro t e h
  match t with
  | [] => rfl
  | .scan o :: t' => exact h
  | .trCall s :: t' => exact Bool.noConfusion h
  | .execUpd p v :: t' => exact Bool.noConfusion h
  | .commit :: t' => exact Bool.noConfusion h

lemma wpAux_rows_append_trCalls (B : Nat) :
    ∀ (l t : List Ev) (e : Nat), (∀ ev ∈ l, ∃ s, ev = Ev.trCall s) →
      wpAux B .rows e (l ++ t) = wpAux B .rows e t := by
  intro l
  induction l with
  | nil => intro t e _; rfl
  | cons ev l ih =>
    intro t e hall
    rcases hall ev (List.mem_cons_self ev l) with ⟨s, rfl⟩
    rw [List.cons_append, wpAux_rows_trCall]
    exact ih t e (fun v hv => hall v (List.mem_cons_of_mem _ hv))

lemma wpAux_writes_execs (B : Nat) :
    ∀ (us : List (List PyVal × Str)) (t : List Ev) (e : Nat),
      wpAux B .writes e ((us.map fun u => Ev.execUpd u.1 u.2) ++ t) = wpAux B .writes e t := by
  intro us
  induction us with
  | nil => intro t e; rfl
  | cons u us ih =>
    intro t e
    rw [List.map_cons, List.cons_append, wpAux_writes_exec]
    exact ih t e

lemma wpAux_start_runScan {σ : Type} (step : σ → Str → PyVal × σ × Nat) (B : Nat) (dry : Bool)
    (table : List Row) :
    ∀ (fuel : Nat) (st : σ) (offset : Nat),
      wpAux B .start offset (runScan step B dry table fuel st offset).trace = true := by
  intro fuel
  induction fuel with
  | zero => intro st offset; rfl
  | succ n ih =>
    intro st offset
    rw [runScan]
    cases hp : ((table.drop offset).take B).isEmpty
    · dsimp only
      rw [if_neg (by simp [hp])]
      dsimp only
      simp only [List.cons_append, List.append_assoc]
      rw [wpAux_start_scan]
      rw [beq_self_eq_true]
      rw [Bool.true_and]
      rw [wpAux_rows_append_trCalls B _ _ _
        (runPage_evs_trCall step ((table.drop offset).take B) st)]
      by_cases hw : (dry || (runPage step st ((table.drop offset).take B)).upds.isEmpty) = true
      · rw [if_pos hw, List.nil_append]
        exact wpAux_rows_of_start B _ _ (ih _ (offset + B))
      · rw [if_neg hw]
        have hupds : (runPage step st ((table.drop offset).take B)).upds ≠ [] := by
          intro hc
          apply hw
          rw [hc]
          simp
        cases hupds2 : (runPage step st ((table.drop offset).take B)).upds with
        | nil => exact absurd hupds2 hupds
        | cons u us =>
          rw [List.map_cons, List.cons_append, List.cons_append, wpAux_rows_exec]
          rw [List.append_assoc, wpAux_writes_execs, List.singleton_append, wpAux_writes_commit]
          exact ih _ (offset + B)
    · dsimp only
      rw [if_pos (by simp [hp])]
      rw [wpAux_start_scan, beq_self_eq_true, Bool.true_and]
      rfl

lemma ptc_single {σ : Type} (step : σ → Str → PyVal × σ × Nat) (st : σ) (r : Row) (B' : Nat) :
    (process_table_column step (B' + 1) false [r] st).updates = (runRow step st r).upd.toList ∧
    (process_table_column step (B' + 1) false [r] st).warns =
      (if (runRow step st r).warned then 1 else 0) ∧
    (process_table_column step (B' + 1) false [r] st).scanned = 1 ∧
    (process_table_column step (B' + 1) false [r] st).calls = (runRow step st r).calls := by
  refine ⟨?_, ?_, ?_, ?_⟩ <;>
    simp [process_table_column, runScan, runPage, List.take, List.drop]

lemma mainLoop_get {σ : Type} (step : σ → Str → PyVal × σ × Nat) (B : Nat) (dry : Bool) :
    ∀ (targets : List (List Str × List Row)) (st : σ) (i : Nat) (t : List Str × List Row),
      targets[i]? = some t → t.1 = [] →
      (mainLoop step B dry targets st).1[i]? = some TRes.skippedNoPk := by
  intro targets
  induction targets with
  | nil => intro st i t ht _; simp at ht
  | cons tg ts ih =>
    intro st i t ht hpk
    rcases tg with ⟨pkCols, rows⟩
    cases i with
    | zero =>
      simp only [List.getElem?_cons_zero, Option.some.injEq] at ht
      have hpk0 : pkCols = [] := by rw [← ht] at hpk; simpa using hpk
      rw [mainLoop, if_pos (by simp [hpk0])]
      simp
    | succ j =>
      simp only [List.getElem?_cons_succ] at ht
      rw [mainLoop]
      by_cases hc : pkCols.isEmpty = true
      · rw [if_pos hc]
        simpa using ih st j t ht hpk
      · rw [if_neg hc]
        simpa using ih (process_table_column step B dry rows st).st j t ht hpk

example : utf8DecodeWith [] [255, 228, 189, 160, 229, 165, 189] = cps "你好" := by decide
example : utf8DecodeWith [65533] [255, 228, 189, 160] = 65533 :: cps "你" := by decide
example : utf8DecodeWith [65533] [237, 160, 128] = [65533, 65533, 65533] := by decide
example : utf8DecodeWith [] [104, 105] = cps "hi" := by decide

example : isTranslatableValue (.vstr (cps "你好世界")) = true := by decide
example : isTranslatableValue (.vstr (cps "http://example.com/你好")) = false := by decide
example : isTranslatableValue (.vstr (cps "你")) = false := by decide
example : isTranslatableValue (.vstr (cps "  你好  ")) = true := by decide
example : isTranslatableValue (.vstr (cps "a@b.cn")) = false := by decide
example : isTranslatableValue (.vstr (cps "12.3-4")) = false := by decide
example : should_translate_col (cps "UserPassword") = false := by decide
example : should_translate_col (cps "title") = true := by decide
example : should_translate_col (cps "name_EN") = false := by decide
example : should_translate_col (cps "description") = false := by decide

lemma isEmpty_or_len (t : Str) :
    (t.isEmpty || decide (t.length ≤ 1)) = decide (t.length ≤ 1) := by
  cases t <;> simp

/-- C4: value classification.  `IsTranslatableValue` (the engine's row
gate) holds exactly when the string contains a CJK-range code point and
none of the rejections applies: trimmed length ≤ 1, URL-scheme prefix,
email shape, purely numeric/punctuation shape, or a structural-data
marker at the start. -/
theorem claim_C4_value_classification (s : Str) :
    isTranslatableValue (.vstr s) = true ↔
      (CN_search s = true ∧ ¬((pyStrip s).length ≤ 1) ∧
        urlMatch (pyStrip s) = false ∧ emailMatch (pyStrip s) = false ∧
        numericMatch (pyStrip s) = false ∧ hasStructuralHead (pyStrip s) = false) := by
  by_cases hlen : (pyStrip s).length ≤ 1 <;>
    by_cases hurl : urlMatch (pyStrip s) = true <;>
    by_cases hemail : emailMatch (pyStrip s) = true <;>
    by_cases hnum : numericMatch (pyStrip s) = true <;>
    by_cases hstruct : hasStructuralHead (pyStrip s) = true <;>
    by_cases hcn : CN_search s = true <;>
    simp_all [isTranslatableValue, looks_like_non_language_value, nonLanguageStr,
      contains_chinese, isEmpty_or_len]

/-- C5: echo-as-failure.  When the gates pass and the translator call
returns output identical to the input string, the row is logged
(`warned`) and skipped: no update is buffered and no write is issued. -/
theorem claim_C5_echo_failure {σ : Type} (step : σ → Str → PyVal × σ × Nat) (st st' : σ)
    (r : Row) (s : Str) (c : Nat)
    (hsrc : r.src = .vstr s)
    (hlooks : looks_like_non_language_value (.vstr s) = false)
    (hcn : contains_chinese (.vstr s) = true)
    (hen : pyTruthy r.en = false)
    (hstep : step st s = (.vstr s, st', c)) :
    (runRow step st r).upd = none ∧ (runRow step st r).warned = true ∧
      (runRow step st r).calls = c := by
  have he := rowEligible_some r s hsrc hlooks hcn hen
  rw [runRow_step step st r s he, hstep]
  dsimp only
  rw [if_pos rfl]
  exact ⟨rfl, rfl, rfl⟩

/-- Witness for C5 at a concrete echoing translator and row. -/
theorem claim_C5_echo_failure_witness :
    (runRow echoStep () ⟨[], .vstr (cps "你好"), .vnone⟩).upd = none ∧
    (runRow echoStep () ⟨[], .vstr (cps "你好"), .vnone⟩).warned = true ∧
    (runRow echoStep () ⟨[], .vstr (cps "你好"), .vnone⟩).calls = 1 :=
  claim_C5_echo_failure echoStep () () ⟨[], .vstr (cps "你好"), .vnone⟩ (cps "你好") 1
    rfl (by decide) (by decide) rfl rfl

/-- C6: no-primary-key exclusion.  Any driver target whose table has no
primary-key columns is reported as skipped; a skipped target performs
zero updates and zero external calls. -/
theorem claim_C6_no_pk {σ : Type} (step : σ → Str → PyVal × σ × Nat) (B : Nat) (dry : Bool)
    (st : σ) (targets : List (List Str × List Row)) (i : Nat) (t : List Str × List Row)
    (ht : targets[i]? = some t) (hpk : t.1 = []) :
    (mainLoop step B dry targets st).1[i]? = some TRes.skippedNoPk ∧
    tUpdates (TRes.skippedNoPk : TRes σ) = 0 ∧ tCalls (TRes.skippedNoPk : TRes σ) = 0 :=
  ⟨mainLoop_get step B dry targets st i t ht hpk, rfl, rfl⟩

/-- Witness for C6 at a concrete one-target run. -/
theorem claim_C6_no_pk_witness :
    ([(([] : List Str), [sampleRow])][0]? = some (([] : List Str), [sampleRow])) ∧
    (mainLoop echoStep 200 false [(([] : List Str), [sampleRow])] ()).1[0]? =
      some TRes.skippedNoPk :=
  ⟨rfl,
    (claim_C6_no_pk echoStep 200 false () [(([] : List Str), [sampleRow])] 0
      (([] : List Str), [sampleRow]) rfl rfl).1⟩

/-- C7: page-granular transactional write-back.  Every trace of
`process_table_column` (any translator, any batch size, any table) passes
the `wellPaged` checker: per page, one scan, then row processing with no
update execution and no commit, then a contiguous block of update
executions closed by exactly one commit, before the next scan whose
offset advanced by the page size. -/
theorem claim_C7_page_transactions {σ : Type} (step : σ → Str → PyVal × σ × Nat) (B : Nat)
    (table : List Row) (st : σ) :
    wellPaged B (process_table_column step B false table st).trace = true :=
  wpAux_start_runScan step B false table (table.length + 1) st 0

/-- C8: column deny-list.  A column name whose lowercase form ends with
the companion suffix `_en`, or contains any deny-listed keyword, is never
eligible, regardless of the letter case of the input name. -/
theorem claim_C8_column_denylist (col : Str)
    (h : (cps "_en").isSuffixOf (col.map asciiLowerCp) = true ∨
      ∃ k ∈ SKIP_COL_KEYWORDS, isSubstr k (col.map asciiLowerCp) = true) :
    should_translate_col col = false := by
  unfold should_translate_col
  by_cases hs : (cps "_en").isSuffixOf (col.map asciiLowerCp) = true
  · rw [if_pos hs]
  · rw [if_neg hs]
    rcases h with h | ⟨k, hk, hin⟩
    · exact absurd h hs
    · have : (SKIP_COL_KEYWORDS.any fun k => isSubstr k (col.map asciiLowerCp)) = true :=
        List.any_eq_true.mpr ⟨k, hk, hin⟩
      rw [this]
      rfl

/-- Witness for C8 at the mixed-case name `"PassWord1"`. -/
theorem claim_C8_column_denylist_witness :
    (∃ k ∈ SKIP_COL_KEYWORDS, isSubstr k ((cps "PassWord1").map asciiLowerCp) = true) ∧
    should_translate_col (cps "PassWord1") = false :=
  ⟨by decide, claim_C8_column_denylist (cps "PassWord1") (Or.inr (by decide))⟩

/-- C9 counterexample: the engine decodes bytes with `errors="ignore"`
(dropping undecodable bytes), not `errors="replace"`.  On the bytes
`FF E4 BD A0 E5 A5 BD` the engine translates `"你好"`, while the
replacing decode claimed by the spec yields `"�你好"`, a different
string; the engine's behaviour on the bytes row differs from its
behaviour on the replace-decoded row. -/
theorem claim_C9_decode_cex :
    (runRow noneStep () ⟨[], .vbytes bytesCex, .vnone⟩).evs = [Ev.trCall (cps "你好")] ∧
    utf8DecodeWith [65533] bytesCex = 65533 :: cps "你好" ∧
    ¬((runRow noneStep () ⟨[], .vbytes bytesCex, .vnone⟩).evs =
      (runRow noneStep () ⟨[], .vstr (utf8DecodeWith [65533] bytesCex), .vnone⟩).evs) := by
  decide

/-- C9 amended: bytes source values are decoded best-effort with
undecodable bytes dropped (`errors="ignore"`), never failing or skipping
the row at the decoding step -- the row behaves exactly like the row
holding the ignore-decoded string; only non-string, non-bytes values are
skipped at the type gate (with no translator call). -/
theorem claim_C9_decode_amended {σ : Type} (step : σ → Str → PyVal × σ × Nat) (st : σ) :
    (∀ (pk : List PyVal) (b : List Nat) (en : PyVal),
      runRow step st ⟨pk, .vbytes b, en⟩ = runRow step st ⟨pk, .vstr (utf8DecodeWith [] b), en⟩) ∧
    (∀ (pk : List PyVal) (en : PyVal),
      runRow step st ⟨pk, .vnone, en⟩ = ⟨none, false, st, 0, []⟩) ∧
    (∀ (pk : List PyVal) (en : PyVal),
      runRow step st ⟨pk, .vother, en⟩ = ⟨none, false, st, 0, []⟩) :=
  ⟨fun _ _ _ => rfl, fun _ _ => rfl, fun _ _ => rfl⟩


lemma azLoop_perm_first (oracle : Nat → HttpOutcome) (text : Str) (cache : Cache)
    (attempt rem : Nat) (backoff : ℚ) (calls : Nat) (sleeps : List ℚ) (status : Nat)
    (tf : Option PyVal)
    (horacle : oracle attempt = .resp status tf)
    (hsucc : successStatus status = false) (hretry : retryStatus status = false) :
    translateAzureLoop oracle text cache attempt (rem + 1) backoff calls sleeps =
      ⟨.vstr text, cache, calls + 1, sleeps⟩ := by
  rw [translateAzureLoop, horacle]
  dsimp only
  rw [if_neg (by simp [hsucc]), if_neg (by simp [hretry])]

lemma azLoop_unparsable_first (oracle : Nat → HttpOutcome) (text : Str) (cache : Cache)
    (attempt rem : Nat) (backoff : ℚ) (calls : Nat) (sleeps : List ℚ)
    (horacle : oracle attempt = .resp 200 none) :
    translateAzureLoop oracle text cache attempt (rem + 1) backoff calls sleeps =
      ⟨.vstr text, cache, calls + 1, sleeps⟩ := by
  rw [translateAzureLoop, horacle]
  dsimp only
  rw [if_pos (by decide)]

/-- C2 counterexample: the cache stores only successful results, so a
second lookup of the same string after a failed first call does trigger a
second external call.  With a transport answering HTTP 403 every time,
the first lookup of `"你好"` makes one external call, and the second
lookup (with the cache the first lookup left behind) makes another，not
zero. -/
theorem claim_C2_cache_cex :
    (translate_azure oracle403 [] (cps "你好")).calls = 1 ∧
    (translate_azure oracle403
        (translate_azure oracle403 [] (cps "你好")).cache (cps "你好")).calls = 1 := by
  decide

/-- C2 amended: at most one SUCCESSFUL external call per source string
per run.  Precisely: (1) a lookup of a cached, non-empty string is
served from the cache with zero external calls and returns the cached
value; (2) any lookup either leaves the cache unchanged or adds exactly
the entry for its own previously uncached text with the returned value;
(3) no lookup removes or changes an existing cache entry; (4) for a
non-empty uncached text, a lookup writes the cache entry
`(text, result)` IF AND ONLY IF some attempt below the 5-attempt cap,
preceded only by retryable failures, answers with a success status and a
parsable body -- a successful lookup caches its result, and only
successful lookups do; (5) once a string is cached, every later lookup
of it in the run -- regardless of arbitrarily many interleaved lookups of
other strings with arbitrary transports -- makes zero external calls and
returns the cached value; and (6) over any run (any sequence of lookups
threading the cache from empty or from any starting cache), the number
of invocations of a given string that perform a successful external call
is at most one. -/
theorem claim_C2_cache_amended (oracle : Nat → HttpOutcome) (cache : Cache) (text : Str) :
    (∀ v, text.isEmpty = false → cache.lookup text = some v →
      translate_azure oracle cache text = ⟨v, cache, 0, []⟩) ∧
    ((translate_azure oracle cache text).cache = cache ∨
      (cache.lookup text = none ∧
        (translate_azure oracle cache text).cache =
          (text, (translate_azure oracle cache text).val) :: cache)) ∧
    (∀ (k : Str) (v : PyVal), cache.lookup k = some v →
      (translate_azure oracle cache text).cache.lookup k = some v) ∧
    (text.isEmpty = false → cache.lookup text = none →
      ((translate_azure oracle cache text).cache =
          (text, (translate_azure oracle cache text).val) :: cache ↔
        ∃ k, k < 5 ∧ (∀ i, i < k → retryOutcome (oracle i) = true) ∧
          ∃ status out, successStatus status = true ∧
            oracle k = .resp status (some out))) ∧
    (∀ (v : PyVal) (l : List ((Nat → HttpOutcome) × Str)), text.isEmpty = false →
      cache.lookup text = some v →
      translate_azure oracle (azRunCache cache l) text = ⟨v, azRunCache cache l, 0, []⟩) ∧
    (∀ (l : List ((Nat → HttpOutcome) × Str)), azRunSuccCount text cache l ≤ 1) :=
  ⟨fun v hne h => translate_azure_cached oracle cache text v hne h,
   translate_azure_res_cases oracle cache text,
   fun k v h => translate_azure_lookup_preserved oracle cache text k v h,
   fun hne hnone => translate_azure_success_iff oracle cache text hne hnone,
   fun v l hne h =>
     translate_azure_cached oracle (azRunCache cache l) text v hne
       (azRunCache_preserves l cache text v h),
   fun l => azRunSuccCount_le_one l cache text⟩

/-- Witness for C2 (amended): a pre-cached string is served with zero
external calls; and a run that looks the same string up three times --
first successfully (one exception, then success), then against a
permanently failing transport, then again -- performs at most one
successful external call for it. -/
theorem claim_C2_cache_amended_witness :
    ((cps "你好").isEmpty = false) ∧
    (([(cps "你好", PyVal.vstr (cps "hello"))] : Cache).lookup (cps "你好") =
      some (PyVal.vstr (cps "hello"))) ∧
    translate_azure oracle403 [(cps "你好", PyVal.vstr (cps "hello"))] (cps "你好") =
      ⟨.vstr (cps "hello"), [(cps "你好", PyVal.vstr (cps "hello"))], 0, []⟩ ∧
    azRunSuccCount (cps "你好") []
      [(oracleOneExn, cps "你好"), (oracle403, cps "你好"), (oracleOneExn, cps "你好")] ≤ 1 :=
  ⟨by decide, by decide,
    (claim_C2_cache_amended oracle403 [(cps "你好", PyVal.vstr (cps "hello"))]
      (cps "你好")).1 (PyVal.vstr (cps "hello")) (by decide) (by decide),
    (claim_C2_cache_amended oracleOneExn [] (cps "你好")).2.2.2.2.2
      [(oracleOneExn, cps "你好"), (oracle403, cps "你好"), (oracleOneExn, cps "你好")]⟩

/-- C10 counterexample: the wrapper does not always return a string.  A
success response whose parsed `"text"` field is a non-string value (no
exception is raised while indexing it) is returned as is; the caller
guards against this with `isinstance(en, str)`. -/
theorem claim_C10_total_cex :
    isStrVal (translate oracleOther [] (cps "你好")).val = false := by
  decide

/-- C10 amended: the wrapper is total and never raises; it makes at most
5 transport calls; its result is either the original input string (every
failure path: exception exhaustion, non-retryable status, unparsable
success body, retry exhaustion) or the cache entry for the input (the
parsed success value, not guaranteed to be a string); a non-retryable
non-success first status returns the input immediately after one call;
an unparsable success body returns the input after one call; and when
every attempt fails retryably the input is returned after exactly 5
calls. -/
theorem claim_C10_total_amended (oracle : Nat → HttpOutcome) (cache : Cache) (text : Str) :
    ((translate oracle cache text).calls ≤ 5) ∧
    ((translate oracle cache text).val = .vstr text ∨
      (translate oracle cache text).cache.lookup text = some (translate oracle cache text).val) ∧
    (∀ (status : Nat) (tf : Option PyVal), text.isEmpty = false → cache.lookup text = none →
      oracle 0 = .resp status tf → successStatus status = false → retryStatus status = false →
      translate oracle cache text = ⟨.vstr text, cache, 1, []⟩) ∧
    (text.isEmpty = false → cache.lookup text = none → oracle 0 = .resp 200 none →
      translate oracle cache text = ⟨.vstr text, cache, 1, []⟩) ∧
    ((∀ i, i < 5 → retryOutcome (oracle i) = true) → text.isEmpty = false →
      cache.lookup text = none →
      (translate oracle cache text).val = .vstr text ∧ (translate oracle cache text).calls = 5) := by
  refine ⟨translate_azure_calls_le oracle cache text,
    translate_azure_val_cases oracle cache text, ?_, ?_, ?_⟩
  · intro status tf hne hnone horacle hsucc hretry
    rw [translate, translate_azure_uncached oracle cache text hne hnone]
    exact azLoop_perm_first oracle text cache 0 4 (4 / 5) 0 [] status tf horacle hsucc hretry
  · intro hne hnone horacle
    rw [translate, translate_azure_uncached oracle cache text hne hnone]
    exact azLoop_unparsable_first oracle text cache 0 4 (4 / 5) 0 [] horacle
  · intro hall hne hnone
    rw [translate, translate_azure_uncached oracle cache text hne hnone]
    rw [azLoop_all_retry oracle text cache 5 0 (4 / 5) 0 []
      (fun i hi => by simpa using hall i hi)]
    exact ⟨rfl, rfl⟩

/-- Witness for C10 (amended) at the permanently failing transport: one
call, the input string returned. -/
theorem claim_C10_total_amended_witness :
    (translate oracle403 [] (cps "你好")).calls ≤ 5 ∧
    translate oracle403 [] (cps "你好") = ⟨.vstr (cps "你好"), [], 1, []⟩ :=
  ⟨(claim_C10_total_amended oracle403 [] (cps "你好")).1,
    (claim_C10_total_amended oracle403 [] (cps "你好")).2.2.1 403 none (by decide) (by decide)
      rfl (by decide) (by decide)⟩


/-- C3: retry policy.  For an uncached eligible text: (i) a run of `k`
retryable failures (`k` below the 5-attempt cap) followed by a parsed
success makes exactly `k + 1` transport calls with the exponential
backoff delays `0.8 * 1.6 ^ i` (`i < k`), returns the parsed value, and
the engine issues exactly one write for the row; (ii) when every attempt
fails retryably, 5 calls are made, the input is returned, and the engine
leaves the row's companion unset -- zero writes, one logged skip -- while
the scan completes normally. -/
theorem claim_C3_retry_policy (oracle : Nat → HttpOutcome) (k : Nat) (s e : Str)
    (pk : List PyVal) (B' : Nat)
    (hk : k < 5)
    (hretry : ∀ i, i < k → retryOutcome (oracle i) = true)
    (hsucc : oracle k = .resp 200 (some (.vstr e)))
    (hlooks : looks_like_non_language_value (.vstr s) = false)
    (hcn : contains_chinese (.vstr s) = true)
    (hne : e ≠ s) :
    (translate_azure oracle [] s).calls = k + 1 ∧
    (translate_azure oracle [] s).sleeps =
      (List.range k).map (fun i => (4 / 5 : ℚ) * (8 / 5 : ℚ) ^ i) ∧
    (translate_azure oracle [] s).val = .vstr e ∧
    (process_table_column (azStep oracle) (B' + 1) false [⟨pk, .vstr s, .vnone⟩] []).updates
      = [(pk, e)] ∧
    (∀ oracle2 : Nat → HttpOutcome, (∀ i, i < 5 → retryOutcome (oracle2 i) = true) →
      (translate_azure oracle2 [] s).calls = 5 ∧
      (translate_azure oracle2 [] s).val = .vstr s ∧
      (translate_azure oracle2 [] s).sleeps =
        (List.range 5).map (fun i => (4 / 5 : ℚ) * (8 / 5 : ℚ) ^ i) ∧
      (process_table_column (azStep oracle2) (B' + 1) false [⟨pk, .vstr s, .vnone⟩] []).updates
        = [] ∧
      (process_table_column (azStep oracle2) (B' + 1) false [⟨pk, .vstr s, .vnone⟩] []).warns
        = 1 ∧
      (process_table_column (azStep oracle2) (B' + 1) false [⟨pk, .vstr s, .vnone⟩] []).scanned
        = 1) := by
  have hne0 : s.isEmpty = false := by
    cases s with
    | nil => exact absurd hcn (by decide)
    | cons a as => rfl
  have hT : translate_azure oracle [] s = ⟨.vstr e, [(s, .vstr e)], k + 1, geomSleeps (4 / 5) k⟩ := by
    rw [translate_azure_uncached oracle [] s hne0 rfl]
    rw [azLoop_retry_then_success oracle s [] (.vstr e) k 0 5 (4 / 5) 0 [] hk
      (fun i hi => by simpa using hretry i hi) (by simpa using hsucc)]
    simp
  have hrow : rowEligible ⟨pk, .vstr s, .vnone⟩ = some s :=
    rowEligible_some _ s rfl hlooks hcn rfl
  have hstep : azStep oracle [] s = (.vstr e, [(s, .vstr e)], k + 1) := by
    unfold azStep translate
    rw [hT]
  have hrr : runRow (azStep oracle) [] ⟨pk, .vstr s, .vnone⟩ =
      ⟨some (pk, e), false, [(s, .vstr e)], k + 1, [.trCall s]⟩ := by
    rw [runRow_step (azStep oracle) [] _ s hrow, hstep]
    dsimp only
    rw [if_neg hne]
  rcases ptc_single (azStep oracle) [] ⟨pk, .vstr s, .vnone⟩ B' with ⟨hu, _, _, _⟩
  refine ⟨by rw [hT], ?_, by rw [hT], ?_, ?_⟩
  · rw [hT]
    exact geomSleeps_eq (4 / 5) k
  · rw [hu, hrr]
    rfl
  · intro oracle2 hall
    have hT2 : translate_azure oracle2 [] s = ⟨.vstr s, [], 5, geomSleeps (4 / 5) 5⟩ := by
      rw [translate_azure_uncached oracle2 [] s hne0 rfl]
      rw [azLoop_all_retry oracle2 s [] 5 0 (4 / 5) 0 [] (fun i hi => by simpa using hall i hi)]
      simp
    have hstep2 : azStep oracle2 [] s = (.vstr s, [], 5) := by
      unfold azStep translate
      rw [hT2]
    have hrr2 : runRow (azStep oracle2) [] ⟨pk, .vstr s, .vnone⟩ =
        ⟨none, true, [], 5, [.trCall s]⟩ := by
      rw [runRow_step (azStep oracle2) [] _ s hrow, hstep2]
      dsimp only
      rw [if_pos rfl]
    rcases ptc_single (azStep oracle2) [] ⟨pk, .vstr s, .vnone⟩ B' with ⟨hu2, hw2, hsc2, _⟩
    refine ⟨by rw [hT2], by rw [hT2], ?_, by rw [hu2, hrr2]; rfl, ?_, hsc2⟩
    · rw [hT2]
      exact geomSleeps_eq (4 / 5) 5
    · rw [hw2, hrr2]
      rfl

/-- Witness for C3: one network exception then success, against a
single-row table; and an always-failing transport for the exhaustion
part. -/
theorem claim_C3_retry_policy_witness :
    (translate_azure oracleOneExn [] (cps "你好")).calls = 2 ∧
    (translate_azure oracleOneExn [] (cps "你好")).sleeps =
      (List.range 1).map (fun i => (4 / 5 : ℚ) * (8 / 5 : ℚ) ^ i) ∧
    (translate_azure oracleOneExn [] (cps "你好")).val = .vstr (cps "hello") ∧
    (process_table_column (azStep oracleOneExn) 1 false [⟨[], .vstr (cps "你好"), .vnone⟩]
      []).updates = [([], cps "hello")] ∧
    ((translate_azure oracleExn [] (cps "你好")).calls = 5 ∧
      (translate_azure oracleExn [] (cps "你好")).val = .vstr (cps "你好") ∧
      (translate_azure oracleExn [] (cps "你好")).sleeps =
        (List.range 5).map (fun i => (4 / 5 : ℚ) * (8 / 5 : ℚ) ^ i) ∧
      (process_table_column (azStep oracleExn) 1 false [⟨[], .vstr (cps "你好"), .vnone⟩]
        []).updates = [] ∧
      (process_table_column (azStep oracleExn) 1 false [⟨[], .vstr (cps "你好"), .vnone⟩]
        []).warns = 1 ∧
      (process_table_column (azStep oracleExn) 1 false [⟨[], .vstr (cps "你好"), .vnone⟩]
        []).scanned = 1) := by
  have h := claim_C3_retry_policy oracleOneExn 1 (cps "你好") (cps "hello") [] 0
    (by decide) (by decide) rfl (by decide) (by decide) (by decide)
  exact ⟨h.1, h.2.1, h.2.2.1, h.2.2.2.1, h.2.2.2.2 oracleExn (by decide)⟩


/-- C1 counterexample: when the translator's parsed success value is the
empty string, the first run fills the companion with `""`, which the
fill-only gate (`r.get(col_en)` truthiness) treats as empty -- so a second
run over the otherwise unchanged table re-translates the row and performs
one more write, not zero. -/
theorem claim_C1_fill_only_cex :
    (process_table_column (azStep oracleEmpty) 1 false [sampleRow] []).updates =
      [([PyVal.vstr [55]], [])] ∧
    (process_table_column (azStep oracleEmpty) 1 false
        (applyUpdates [sampleRow]
          (process_table_column (azStep oracleEmpty) 1 false [sampleRow] []).updates)
        []).updates.length = 1 := by
  decide

/-- C1 amended: (i) a row whose companion value is truthy (non-empty) is
skipped before any translator call -- no update is issued for it, no call
is made; (ii) provided every translation result is a non-empty string
(`f s ≠ ""`), running the pass twice with the same deterministic
translator over an otherwise unchanged table yields zero writes on the
second run. -/
theorem claim_C1_fill_only_amended (f : Str → PyVal) (B' : Nat) (table : List Row)
    (hf : ∀ s, f s ≠ .vstr []) :
    (∀ (σ : Type) (step : σ → Str → PyVal × σ × Nat) (st : σ) (r : Row),
      pyTruthy r.en = true →
        (runRow step st r).upd = none ∧ (runRow step st r).calls = 0 ∧
          (runRow step st r).evs = []) ∧
    (process_table_column (pureStep f) (B' + 1) false
        (applyUpdates table
          (process_table_column (pureStep f) (B' + 1) false table ()).updates)
        ()).updates = [] := by
  constructor
  · intro σ step st r h
    rw [runRow_of_truthy step st r h]
    exact ⟨rfl, rfl, rfl⟩
  · have hlen1 : ∀ (tb : List Row), tb.length ≤ 0 + (tb.length + 1) * (B' + 1) := by
      intro tb
      have h1 : tb.length + 1 ≤ (tb.length + 1) * (B' + 1) :=
        Nat.le_mul_of_pos_right _ (by omega)
      omega
    set U := (process_table_column (pureStep f) (B' + 1) false table ()).updates with hUdef
    have hU : U = table.filterMap (rowUpd f) := by
      rw [hUdef, process_table_column,
        runScan_pure_updates f (B' + 1) false table (by omega) (table.length + 1) 0 ()
          (hlen1 table),
        List.drop_zero]
    show (process_table_column (pureStep f) (B' + 1) false (applyUpdates table U) ()).updates = []
    rw [process_table_column,
      runScan_pure_updates f (B' + 1) false (applyUpdates table U) (by omega)
        ((applyUpdates table U).length + 1) 0 () (hlen1 (applyUpdates table U)),
      List.drop_zero]
    refine List.filterMap_eq_nil_iff.mpr ?_
    intro r2 hr2
    rw [applyUpdates_eq_map] at hr2
    obtain ⟨r, hr, rfl⟩ := List.mem_map.mp hr2
    rcases applyAll_cases U r with ⟨hall, heq⟩ | ⟨u, hu, hupk, hen⟩
    · rw [heq]
      cases hru : rowUpd f r with
      | none => rfl
      | some u =>
        exfalso
        have hmem : u ∈ U := by
          rw [hU]
          exact List.mem_filterMap.mpr ⟨r, hr, hru⟩
        exact hall u hmem (rowUpd_pk f r u hru)
    · have hmem : u ∈ table.filterMap (rowUpd f) := by rw [← hU]; exact hu
      obtain ⟨r', hr', hru'⟩ := List.mem_filterMap.mp hmem
      obtain ⟨s, _, hfs, _⟩ := rowUpd_shape f r' u hru'
      have hne : u.2 ≠ [] := by
        intro hc
        apply hf s
        rw [hfs, hc]
      apply rowUpd_of_truthy
      rw [hen]
      simp only [pyTruthy, Bool.not_eq_true']
      simpa [List.isEmpty_iff] using hne

/-- Witness for C1 (amended): a non-empty-translating run over the
sample table produces no writes on the second pass, and a row with a
non-empty companion is skipped without a translator call. -/
theorem claim_C1_fill_only_amended_witness :
    (process_table_column (pureStep (fun _ => PyVal.vstr (cps "ok"))) 1 false
        (applyUpdates [sampleRow]
          (process_table_column (pureStep (fun _ => PyVal.vstr (cps "ok"))) 1 false
            [sampleRow] ()).updates)
        ()).updates = [] ∧
    (runRow echoStep () ⟨[], .vstr (cps "你好"), .vstr (cps "x")⟩).upd = none ∧
    (runRow echoStep () ⟨[], .vstr (cps "你好"), .vstr (cps "x")⟩).calls = 0 :=
  ⟨(claim_C1_fill_only_amended (fun _ => PyVal.vstr (cps "ok")) 0 [sampleRow]
      (fun _ h => by simp [cps] at h)).2,
   ((claim_C1_fill_only_amended (fun _ => PyVal.vstr (cps "ok")) 0 [sampleRow]
      (fun _ h => by simp [cps] at h)).1 Unit echoStep ()
      ⟨[], .vstr (cps "你好"), .vstr (cps "x")⟩ (by decide)).1,
   ((claim_C1_fill_only_amended (fun _ => PyVal.vstr (cps "ok")) 0 [sampleRow]
      (fun _ h => by simp [cps] at h)).1 Unit echoStep ()
      ⟨[], .vstr (cps "你好"), .vstr (cps "x")⟩ (by decide)).2.1⟩

end NoteSys
